import Mathlib

/-!
Verification development for the wealth-data ETL script (`src/scripts/scripts.py`).

The file embeds the two components of the script:

* `WealthDataProcessor.clean_cols` and `process_data` — column-name
  normalization and the per-table derivations (surrogate id column,
  whitespace trimming, row-completeness filter), over a `DataFrame`
  modelled as a header list plus a list of rows of nullable cells.
  String operations are modelled over ASCII characters, character by
  character, following the Python expressions of the source.
* `PostgreSQLConnector` — connection state and the try/except control
  flow of `connect`, `execute_query` and `create_table`.  The database
  driver is external, so each call that reaches the driver takes the
  driver's outcome (success or `psycopg2.Error`) as an explicit argument;
  everything the script itself does with that outcome is embedded.
-/

/-- ASCII letter test: the character class `a-zA-Z` used by the
`^[^a-zA-Z]+` regular expression in `clean_cols`. -/
def isAsciiAlpha (c : Char) : Bool :=
  ('a' ≤ c && c ≤ 'z') || ('A' ≤ c && c ≤ 'Z')

/-- Whitespace removed by Python `str.strip()` (ASCII range: space, tab,
newline, carriage return, vertical tab, form feed). -/
def isPySpace (c : Char) : Bool :=
  c == ' ' || c == '\t' || c == '\n' || c == '\r' ||
  c == Char.ofNat 11 || c == Char.ofNat 12

/-- Character step of `"_".join(column.split(" "))`: every space becomes an
underscore, all other characters are kept. -/
def spCh (c : Char) : Char := if c = ' ' then '_' else c

/-- Character step of `.replace("-", "_")`. -/
def hyCh (c : Char) : Char := if c = '-' then '_' else c

/-- List form of `"_".join(column.split(" "))`. -/
def replSpace (l : List Char) : List Char := l.map spCh

/-- List form of `.lower()` (ASCII: `Char.toLower` is exactly Python's
lowercasing on the basic latin range the headers use). -/
def lowerAll (l : List Char) : List Char := l.map Char.toLower

/-- List form of `re.sub(r"^[^a-zA-Z]+", "", s)`: drop the longest leading
run of non-letters. -/
def stripLead (l : List Char) : List Char := l.dropWhile (fun c => !isAsciiAlpha c)

/-- List form of `.replace("-", "_")`. -/
def replHyphen (l : List Char) : List Char := l.map hyCh

/-- List form of Python `str.strip()`: remove leading and trailing
whitespace. -/
def pyStrip (l : List Char) : List Char :=
  ((l.dropWhile isPySpace).reverse.dropWhile isPySpace).reverse

/-- Match condition of the regular expression `^(\d{4}) \[YR\1\]$` from the
first pass of `clean_cols`: thirteen characters, a four-digit prefix, then
a space, `[YR`, the same four digits again, and `]`. -/
def isYearCol (l : List Char) : Bool :=
  l.length == 13 && (l.take 4).all Char.isDigit &&
    (l.drop 4 == ' ' :: '[' :: 'Y' :: 'R' :: (l.take 4 ++ [']']))

/-- First pass of `clean_cols`:
`re.sub(r"^(\d{4}) \[YR\1\]$", r"year_\1", col)` — a header of the form
`"YYYY [YRYYYY]"` becomes `year_YYYY`, anything else is returned as is. -/
def fixYearCol (c : String) : String :=
  if isYearCol c.data then ⟨"year_".data ++ c.data.take 4⟩ else c

/-- Second pass of `clean_cols`:
`re.sub(r"^[^a-zA-Z]+", "", "_".join(column.split(" ")).lower()).replace("-", "_").strip()`.
The steps apply in the source's order: spaces to underscores, lowercase,
strip leading non-letters, hyphens to underscores, strip whitespace. -/
def normCol (c : String) : String :=
  ⟨pyStrip (replHyphen (stripLead (lowerAll (replSpace c.data))))⟩

/-- Both passes of `clean_cols` on a single header. -/
def cleanName (c : String) : String := normCol (fixYearCol c)

/-- The second-pass normalization exactly as the specification words it,
in the listed order: the header is lowercased, its leading non-alphabetic
characters are stripped, spaces are replaced with underscores, and hyphens
are replaced with underscores.  Used only to compare the specification's
description against `normCol`, which is translated from the source. -/
def specNormCol (c : String) : String :=
  ⟨replHyphen (replSpace (stripLead (lowerAll c.data)))⟩

/-- A cell of a dataframe: SQL NULL, a string value, or an integer value
(the surrogate id produced by `monotonically_increasing_id`). -/
inductive Cell where
  | null : Cell
  | str (s : String) : Cell
  | num (n : Nat) : Cell
deriving DecidableEq

/-- A dataframe row. -/
abbrev Row := List Cell

/-- A Spark dataframe, modelled as its column headers and its rows. -/
structure DataFrame where
  cols : List String
  rows : List Row
deriving DecidableEq

/-- Value of the column named `name` in row `r`: Spark's `F.col(name)`
resolves the name against the headers (first match). -/
def selectCell (cols : List String) (r : Row) (name : String) : Cell :=
  (List.lookup name (cols.zip r)).getD Cell.null

/-- The `df.select(F.col(src).alias(dst), ...)` pattern of `clean_cols`:
the output has the alias names as headers, and each output row holds the
values of the selected source columns. -/
def select (df : DataFrame) (sel : List (String × String)) : DataFrame :=
  ⟨sel.map Prod.snd, df.rows.map (fun r => sel.map (fun p => selectCell df.cols r p.1))⟩

/-- `WealthDataProcessor.clean_cols`: two renaming selects, first the
year-pattern pass over all headers, then the general normalization pass. -/
def clean_cols (df : DataFrame) : DataFrame :=
  let df1 := select df (df.cols.map (fun c => (c, fixYearCol c)))
  select df1 (df1.cols.map (fun c => (c, normCol c)))

/-- Number of non-null cells of a row, the quantity Spark's
`dropna(thresh=n)` compares against `n`. -/
def countNonNull (r : Row) : Nat :=
  r.countP (fun c => c != Cell.null)

/-- Spark `DataFrame.dropna(thresh=t)`: keep exactly the rows with at
least `t` non-null cells. -/
def dropna (t : Nat) (df : DataFrame) : DataFrame :=
  ⟨df.cols, df.rows.filter (fun r => t ≤ countNonNull r)⟩

/-- Spark SQL `trim`: remove leading and trailing spaces of a string. -/
def sparkTrim (s : String) : String :=
  ⟨((s.data.dropWhile (fun c => c = ' ')).reverse.dropWhile (fun c => c = ' ')).reverse⟩

/-- `F.trim` on a nullable cell: NULL stays NULL, a string is trimmed, an
integer cell is unaffected. -/
def trimCell : Cell → Cell
  | Cell.str s => Cell.str (sparkTrim s)
  | c => c

/-- `df.withColumn(name, F.trim(F.col(name)))`: replace the named column,
in place, by its trimmed value.  When the name resolves to no column the
column reference fails inside Spark before any row is produced, so no
transformed dataframe arises; the embedding returns the input unchanged in
that case (never reached by `process_data` on its tables). -/
def withColumnTrim (df : DataFrame) (name : String) : DataFrame :=
  if name ∈ df.cols then
    ⟨df.cols,
     df.rows.map (fun r =>
       r.set (df.cols.indexOf name) (trimCell (r.getD (df.cols.indexOf name) Cell.null)))⟩
  else df

/-- Ids of one partition: consecutive integers starting at `b`, appended
to the rows of the partition as a new final cell. -/
def withIdsFrom : Nat → List Row → List Row
  | _, [] => []
  | b, r :: rs => (r ++ [Cell.num b]) :: withIdsFrom (b + 1) rs

/-- Partition the row list by the given partition sizes (the physical
layout Spark distributes the rows into). -/
def splitBySizes : List Nat → List Row → List (List Row)
  | [], _ => []
  | n :: ns, rows => rows.take n :: splitBySizes ns (rows.drop n)

/-- `F.monotonically_increasing_id` over the partitions in order: partition
`p` assigns ids `p * 2^33 + 0, p * 2^33 + 1, ...` to its rows. -/
def addIdRows : Nat → List (List Row) → List Row
  | _, [] => []
  | p, part :: parts => withIdsFrom (p * 2 ^ 33) part ++ addIdRows (p + 1) parts

/-- The id values produced by `addIdRows`, as plain numbers. -/
def idsOfParts : Nat → List (List Row) → List Nat
  | _, [] => []
  | p, part :: parts => (List.range part.length).map (fun j => p * 2 ^ 33 + j) ++ idsOfParts (p + 1) parts

/-- `df.withColumn("id", F.monotonically_increasing_id())` for a dataframe
whose rows are laid out in partitions of the given sizes: a new trailing
`id` column holding the per-partition ids. -/
def addIdColumn (df : DataFrame) (sizes : List Nat) : DataFrame :=
  ⟨df.cols ++ ["id"], addIdRows 0 (splitBySizes sizes df.rows)⟩

/-- The account-data branch of `process_data`: clean the headers, add the
id column, trim `series_code` and then `country_code`. -/
def processData (df : DataFrame) (sizes : List Nat) : DataFrame :=
  withColumnTrim (withColumnTrim (addIdColumn (clean_cols df) sizes) "series_code") "country_code"

/-- The account-series branch of `process_data`: clean the headers and trim
`code`. -/
def processSeries (df : DataFrame) : DataFrame :=
  withColumnTrim (clean_cols df) "code"

/-- The account-country branch of `process_data`: clean the headers, trim
`code`, and drop rows with fewer than 5 non-null cells. -/
def processCountry (df : DataFrame) : DataFrame :=
  dropna 5 (withColumnTrim (clean_cols df) "code")

/-- `WealthDataProcessor.process_data` on the three loaded tables (the CSV
reads themselves are external I/O; the three dataframes they produce are
the inputs here). -/
def process_data (dfData dfSeries dfCountry : DataFrame) (sizes : List Nat) :
    DataFrame × DataFrame × DataFrame :=
  (processData dfData sizes, processSeries dfSeries, processCountry dfCountry)

/-- State of `PostgreSQLConnector`: the `connection` attribute (handle and
autocommit flag) and the `cursor` attribute, each possibly `None`. -/
structure PGClient where
  connection : Option (Nat × Bool)
  cursor : Option Nat
deriving DecidableEq

/-- `PostgreSQLConnector.connect`.  `res` is the outcome of the
`psycopg2.connect` call: a new connection handle, or a raised
`psycopg2.Error`.  On success the connection is stored with autocommit
set and a cursor is created; on failure the except-branch only prints,
so the attributes keep their previous values.  Returns the new state and
the console output. -/
def connect (st : PGClient) (res : Except String Nat) : PGClient × List String :=
  match res with
  | Except.ok c =>
      ({ connection := some (c, true), cursor := some c }, ["Connected to the database."])
  | Except.error e =>
      (st, [("Error connecting to the database: ") ++ e])

/-- `PostgreSQLConnector.switch_database`: re-invokes `connect`. -/
def switch_database (st : PGClient) (res : Except String Nat) : PGClient × List String :=
  connect st res

/-- Outcome of running one statement through the driver: the rows
`fetchall` would produce, or a raised `psycopg2.Error`. -/
inductive ExecOutcome where
  | success (rows : List (List String)) : ExecOutcome
  | driverError (msg : String) : ExecOutcome

/-- `PostgreSQLConnector.execute_query`.  With a `None` cursor the attribute
access `self.cursor.execute` raises an uncaught `AttributeError`
(`Except.error`).  Otherwise a `psycopg2.Error` is caught and printed and
`None` is returned; on success the fetched rows are returned when `fetch`
is true and `None` otherwise.  The result pairs the returned value with
the console output. -/
def execute_query (st : PGClient) (_query : String) (fetch : Bool) (oc : ExecOutcome) :
    Except String (Option (List (List String)) × List String) :=
  match st.cursor with
  | none => Except.error ("AttributeError: NoneType object has no attribute execute")
  | some _ =>
      match oc with
      | ExecOutcome.success rows => Except.ok (if fetch then some rows else none, [])
      | ExecOutcome.driverError m => Except.ok (none, [("Error executing the query: ") ++ m])

/-- The `column_defs` string of `create_table`: the `(name type)` pairs
joined with `",\n"`. -/
def column_defs (columns : List (String × String)) : String :=
  String.intercalate (",\n") (columns.map (fun p => p.1 ++ (" ") ++ p.2))

/-- `PostgreSQLConnector.create_table`.  An empty column list only prints
and returns; otherwise the `CREATE TABLE IF NOT EXISTS` statement is built
and passed to `execute_query`.  The first component lists the SQL
statements handed to `execute_query`; the second is that call's result
(`Except.ok` with no statement issued in the empty case). -/
def create_table (st : PGClient) (table_name : String) (columns : List (String × String))
    (oc : ExecOutcome) :
    List String × Except String (Option (List (List String)) × List String) :=
  if columns.isEmpty then
    ([], Except.ok (none, [("No columns specified for table creation.")]))
  else
    let sql := ("CREATE TABLE IF NOT EXISTS ") ++ table_name ++ (" (\n") ++ column_defs columns ++ ("\n);")
    ([sql], execute_query st sql false oc)

/-- Concrete country table used to instantiate the filter theorem: a row
with 3 non-null cells and a row with 6 non-null cells. -/
def dfCountry0 : DataFrame :=
  ⟨["Code", "Long Name", "Income Group", "Region", "Lending Category", "Currency Unit", "Other Groups"],
   [[Cell.str ("ABW"), Cell.str ("Aruba"), Cell.null, Cell.null, Cell.null, Cell.str ("Florin"), Cell.null],
    [Cell.str ("AFG"), Cell.str ("Afghanistan"), Cell.str ("Low income"), Cell.str ("South Asia"),
      Cell.null, Cell.str ("Afghani"), Cell.str ("HIPC")]]⟩

/-- Concrete account-data table used to instantiate the id theorem. -/
def dfData0 : DataFrame :=
  ⟨["Country Code", "Series Code"],
   [[Cell.str ("AFG"), Cell.str ("NW.TOW")],
    [Cell.str ("ALB"), Cell.null],
    [Cell.null, Cell.str ("NW.HCW")]]⟩

/-! Character-level lemmas about the normalization steps. -/

/-- Decoding `Char.ofNat` at a valid code point. -/
theorem toNat_ofNat_valid (n : Nat) (h : n.isValidChar) : (Char.ofNat n).toNat = n := by
  rw [Char.ofNat, dif_pos h]; rfl

/-- `Char.toLower` outside the upper-case range is the identity. -/
theorem toLower_eq_self_of_not_upper (c : Char) (h : ¬ (65 ≤ c.toNat ∧ c.toNat ≤ 90)) :
    Char.toLower c = c := by
  unfold Char.toLower
  rw [if_neg]
  omega

/-- `Char.toLower` on the upper-case range adds 32 to the code point. -/
theorem toNat_toLower_of_upper (c : Char) (h : 65 ≤ c.toNat ∧ c.toNat ≤ 90) :
    (Char.toLower c).toNat = c.toNat + 32 := by
  unfold Char.toLower
  rw [if_pos (by omega)]
  exact toNat_ofNat_valid _ (Or.inl (by omega))

/-- Lowercasing never turns a non-space character into a space. -/
theorem toLower_ne_space (c : Char) (h : c ≠ ' ') : Char.toLower c ≠ ' ' := by
  by_cases hu : 65 ≤ c.toNat ∧ c.toNat ≤ 90
  · intro he
    have h2 := congrArg Char.toNat he
    rw [toNat_toLower_of_upper c hu] at h2
    have h3 : (' ' : Char).toNat = 32 := by decide
    omega
  · rw [toLower_eq_self_of_not_upper c hu]; exact h

/-- `Char.toLower` is idempotent. -/
theorem toLower_toLower (c : Char) : Char.toLower (Char.toLower c) = Char.toLower c := by
  by_cases hu : 65 ≤ c.toNat ∧ c.toNat ≤ 90
  · have h2 := toNat_toLower_of_upper c hu
    exact toLower_eq_self_of_not_upper _ (by omega)
  · rw [toLower_eq_self_of_not_upper c hu, toLower_eq_self_of_not_upper c hu]

/-- Replacing spaces preserves letterhood. -/
theorem isAsciiAlpha_spCh (c : Char) : isAsciiAlpha (spCh c) = isAsciiAlpha c := by
  unfold spCh
  split
  · next h => subst h; decide
  · rfl

/-- The space-replacement step never yields a space. -/
theorem spCh_ne_space (c : Char) : spCh c ≠ ' ' := by
  unfold spCh
  split
  · decide
  · next h => exact h

/-- The hyphen-replacement step never yields a hyphen. -/
theorem hyCh_ne_hyphen (c : Char) : hyCh c ≠ '-' := by
  unfold hyCh
  split
  · decide
  · next h => exact h

/-- Hyphen replacement fixes letters. -/
theorem hyCh_of_alpha (c : Char) (h : isAsciiAlpha c = true) : hyCh c = c := by
  unfold hyCh
  rw [if_neg]
  intro he
  subst he
  exact absurd h (by decide)

/-- Letters are not whitespace. -/
theorem isPySpace_eq_false_of_alpha (c : Char) (h : isAsciiAlpha c = true) :
    isPySpace c = false := by
  cases hc : isPySpace c
  · rfl
  · exfalso
    simp only [isPySpace, Bool.or_eq_true, beq_iff_eq] at hc
    rcases hc with ((((h1 | h1) | h1) | h1) | h1) | h1 <;> subst h1 <;> exact absurd h (by decide)

/-- Lowercasing commutes with the space-to-underscore step. -/
theorem toLower_spCh_comm (c : Char) : Char.toLower (spCh c) = spCh (Char.toLower c) := by
  by_cases hs : c = ' '
  · subst hs; decide
  · have h1 : spCh c = c := by unfold spCh; rw [if_neg hs]
    have h2 : spCh (Char.toLower c) = Char.toLower c := by
      unfold spCh; rw [if_neg (toLower_ne_space c hs)]
    rw [h1, h2]

/-! List-level helper lemmas. -/

/-- A map whose function fixes every element of the list is the identity. -/
theorem map_id_of_mem {α : Type} (l : List α) (f : α → α) (h : ∀ x ∈ l, f x = x) :
    l.map f = l := by
  induction l with
  | nil => rfl
  | cons a t ih =>
      simp only [List.map_cons]
      rw [h a (by simp), ih (fun x hx => h x (by simp [hx]))]

/-- Dropping a prefix by a predicate is idempotent. -/
theorem dropWhile_idem {α : Type} (p : α → Bool) (l : List α) :
    List.dropWhile p (List.dropWhile p l) = List.dropWhile p l := by
  induction l with
  | nil => rfl
  | cons a t ih =>
      by_cases h : p a = true
      · rw [List.dropWhile_cons, if_pos h]; exact ih
      · rw [List.dropWhile_cons, if_neg h, List.dropWhile_cons, if_neg h]

/-- Dropping a prefix through a final element the predicate rejects. -/
theorem dropWhile_concat_of_neg {α : Type} (p : α → Bool) (l : List α) (a : α)
    (h : p a = false) : List.dropWhile p (l ++ [a]) = List.dropWhile p l ++ [a] := by
  rw [List.dropWhile_append]
  split
  · next he =>
      rw [List.isEmpty_iff] at he
      rw [he]
      simp [List.dropWhile_cons, h]
  · rfl

/-- Elements survive `dropWhile` only from the original list. -/
theorem mem_of_mem_dropWhile {α : Type} (p : α → Bool) (l : List α) (x : α)
    (h : x ∈ List.dropWhile p l) : x ∈ l :=
  List.Sublist.mem h (List.dropWhile_sublist p)

/-- The head left by `dropWhile` is rejected by the predicate. -/
theorem dropWhile_eq_cons_head {α : Type} (p : α → Bool) (l : List α) (a : α) (t : List α)
    (h : List.dropWhile p l = a :: t) : p a = false := by
  induction l with
  | nil => simp at h
  | cons b l ih =>
      by_cases hb : p b
      · rw [List.dropWhile_cons, if_pos (by simp [hb])] at h
        exact ih h
      · rw [List.dropWhile_cons, if_neg (by simp [hb])] at h
        cases h
        simpa using hb

/-- Elements of a stripped list come from the original list. -/
theorem mem_of_mem_pyStrip (x : Char) (l : List Char) (h : x ∈ pyStrip l) : x ∈ l := by
  unfold pyStrip at h
  rw [List.mem_reverse] at h
  have h2 := mem_of_mem_dropWhile _ _ _ h
  rw [List.mem_reverse] at h2
  exact mem_of_mem_dropWhile _ _ _ h2

/-- Stripping a list headed by a non-whitespace character keeps that head
and strips only the tail's trailing whitespace. -/
theorem pyStrip_cons (a : Char) (w : List Char) (h : isPySpace a = false) :
    pyStrip (a :: w) = a :: (w.reverse.dropWhile isPySpace).reverse := by
  unfold pyStrip
  rw [List.dropWhile_cons, if_neg (by simp [h])]
  rw [List.reverse_cons, dropWhile_concat_of_neg _ _ _ h]
  rw [List.reverse_append]
  rfl

/-- Every character of a normalized header is a non-space, non-hyphen,
already-lowercase character. -/
theorem normCol_data_props (c : String) :
    ∀ x ∈ (normCol c).data, x ≠ ' ' ∧ x ≠ '-' ∧ Char.toLower x = x := by
  intro x hx
  have hx0 : x ∈ pyStrip (replHyphen (stripLead (lowerAll (replSpace c.data)))) := hx
  have hx1 := mem_of_mem_pyStrip _ _ hx0
  rw [replHyphen, List.mem_map] at hx1
  obtain ⟨y, hy, hxy⟩ := hx1
  have hy1 : y ∈ lowerAll (replSpace c.data) := mem_of_mem_dropWhile _ _ _ hy
  rw [lowerAll, List.mem_map] at hy1
  obtain ⟨w, hw, hyw⟩ := hy1
  rw [replSpace, List.mem_map] at hw
  obtain ⟨v, _, hwv⟩ := hw
  subst hxy
  subst hyw
  subst hwv
  refine ⟨?_, hyCh_ne_hyphen _, ?_⟩
  · by_cases hyh : Char.toLower (spCh v) = '-'
    · unfold hyCh
      rw [if_pos hyh]
      decide
    · unfold hyCh
      rw [if_neg hyh]
      exact toLower_ne_space _ (spCh_ne_space v)
  · by_cases hyh : Char.toLower (spCh v) = '-'
    · unfold hyCh
      rw [if_pos hyh]
      decide
    · unfold hyCh
      rw [if_neg hyh]
      exact toLower_toLower _

/-- A normalized header is fixed by the leading-strip and by the
whitespace-strip steps. -/
theorem stripLead_pyStrip_normCol (c : String) :
    stripLead (normCol c).data = (normCol c).data ∧
      pyStrip (normCol c).data = (normCol c).data := by
  have hdata : (normCol c).data
      = pyStrip (replHyphen (stripLead (lowerAll (replSpace c.data)))) := rfl
  cases hsplit : stripLead (lowerAll (replSpace c.data)) with
  | nil =>
      rw [hdata, hsplit]
      exact ⟨rfl, rfl⟩
  | cons a t =>
      have ha : isAsciiAlpha a = true := by
        have h2 := dropWhile_eq_cons_head _ _ _ _ hsplit
        simpa using h2
      have hps : isPySpace a = false := isPySpace_eq_false_of_alpha a ha
      have hrep : replHyphen (a :: t) = a :: replHyphen t := by
        rw [replHyphen, List.map_cons, hyCh_of_alpha a ha]
        rfl
      have hd2 : (normCol c).data
          = a :: ((replHyphen t).reverse.dropWhile isPySpace).reverse := by
        rw [hdata, hsplit, hrep, pyStrip_cons a _ hps]
      constructor
      · rw [hd2]
        unfold stripLead
        rw [List.dropWhile_cons, if_neg (by simp [ha])]
      · rw [hd2, pyStrip_cons a _ hps]
        congr 1
        rw [List.reverse_reverse, dropWhile_idem]

/-- A header made of clean characters that both strip steps fix is fixed by
the whole second pass. -/
theorem normCol_eq_self (s : String)
    (h1 : ∀ x ∈ s.data, x ≠ ' ' ∧ x ≠ '-' ∧ Char.toLower x = x)
    (h2 : stripLead s.data = s.data) (h3 : pyStrip s.data = s.data) :
    normCol s = s := by
  have e1 : replSpace s.data = s.data :=
    map_id_of_mem _ _ (fun x hx => by unfold spCh; rw [if_neg (h1 x hx).1])
  have e2 : lowerAll s.data = s.data :=
    map_id_of_mem _ _ (fun x hx => (h1 x hx).2.2)
  have e4 : replHyphen s.data = s.data :=
    map_id_of_mem _ _ (fun x hx => by unfold hyCh; rw [if_neg (h1 x hx).2.1])
  show (⟨pyStrip (replHyphen (stripLead (lowerAll (replSpace s.data))))⟩ : String) = s
  rw [e1, e2, h2, e4, h3]

/-- A header without spaces cannot match the year pattern, so the first
pass leaves it alone. -/
theorem fixYearCol_eq_self_of_no_space (s : String) (h : (' ' : Char) ∉ s.data) :
    fixYearCol s = s := by
  unfold fixYearCol
  rw [if_neg]
  intro hy
  unfold isYearCol at hy
  rw [Bool.and_eq_true, Bool.and_eq_true] at hy
  have h3 := hy.2
  rw [beq_iff_eq] at h3
  have hmem : (' ' : Char) ∈ s.data.drop 4 := by rw [h3]; simp
  exact h (List.drop_subset _ _ hmem)

/-- Both passes together are idempotent on a single header. -/
theorem cleanName_idem (c : String) : cleanName (cleanName c) = cleanName c := by
  have hp := normCol_data_props (fixYearCol c)
  have hs := stripLead_pyStrip_normCol (fixYearCol c)
  have hfix : fixYearCol (normCol (fixYearCol c)) = normCol (fixYearCol c) :=
    fixYearCol_eq_self_of_no_space _ (fun hmem => (hp _ hmem).1 rfl)
  show normCol (fixYearCol (normCol (fixYearCol c))) = normCol (fixYearCol c)
  rw [hfix]
  exact normCol_eq_self _ hp hs.1 hs.2

/-- The headers produced by `clean_cols` are the input headers through both
normalization passes, in order. -/
theorem clean_cols_cols (df : DataFrame) :
    (clean_cols df).cols = df.cols.map cleanName := by
  simp only [clean_cols, select, List.map_map]
  rfl

/-- C3: header normalization is idempotent — applying `clean_cols` twice
yields the same column names as applying it once. -/
theorem clean_cols_idempotent (df : DataFrame) :
    (clean_cols (clean_cols df)).cols = (clean_cols df).cols := by
  rw [clean_cols_cols, clean_cols_cols, List.map_map]
  exact List.map_congr_left (fun a _ => cleanName_idem a)

/-- C1: the first pass of `clean_cols` renames every header of the form
`"YYYY [YRYYYY]"` (four digits, with the bracketed year equal to the
leading year) to exactly `year_YYYY`, and leaves every other header
unchanged. -/
theorem fixYearCol_spec (c : String) :
    (∃ y : String, y.data.length = 4 ∧ (∀ ch ∈ y.data, ch.isDigit = true) ∧
        c = y ++ " [YR" ++ y ++ "]" ∧ fixYearCol c = "year_" ++ y) ∨
    (fixYearCol c = c ∧
      ¬ ∃ y : String, y.data.length = 4 ∧ (∀ ch ∈ y.data, ch.isDigit = true) ∧
        c = y ++ " [YR" ++ y ++ "]") := by
  by_cases h : isYearCol c.data = true
  · left
    have h' := h
    unfold isYearCol at h'
    rw [Bool.and_eq_true, Bool.and_eq_true] at h'
    obtain ⟨⟨hlen, hdig⟩, hdrop⟩ := h'
    rw [beq_iff_eq] at hlen hdrop
    refine ⟨⟨c.data.take 4⟩, ?_, ?_, ?_, ?_⟩
    · show (c.data.take 4).length = 4
      rw [List.length_take, hlen]
      decide
    · exact fun ch hch => (List.all_eq_true.mp hdig) ch hch
    · have hdata : ((⟨c.data.take 4⟩ : String) ++ " [YR" ++ ⟨c.data.take 4⟩ ++ "]").data
          = ((c.data.take 4 ++ [' ', '[', 'Y', 'R']) ++ c.data.take 4) ++ [']'] := by
        rw [String.data_append, String.data_append, String.data_append]
      apply String.ext
      rw [hdata]
      conv_lhs => rw [← List.take_append_drop 4 c.data]
      rw [hdrop]
      simp
    · unfold fixYearCol
      rw [if_pos h]
      apply String.ext
      rw [String.data_append]
  · right
    constructor
    · unfold fixYearCol
      rw [if_neg h]
    · rintro ⟨y, hy4, _, hc⟩
      apply h
      have hdata : c.data = y.data ++ ([' ', '[', 'Y', 'R'] ++ (y.data ++ [']'])) := by
        have h1 : c.data = ((y.data ++ [' ', '[', 'Y', 'R']) ++ y.data) ++ [']'] := by
          rw [hc, String.data_append, String.data_append, String.data_append]
        rw [h1]
        simp
      have htake : c.data.take 4 = y.data := by
        rw [hdata]
        exact List.take_left' hy4
      have hdrop2 : c.data.drop 4 = [' ', '[', 'Y', 'R'] ++ (y.data ++ [']']) := by
        rw [hdata]
        exact List.drop_left' hy4
      unfold isYearCol
      rw [Bool.and_eq_true, Bool.and_eq_true]
      refine ⟨⟨?_, ?_⟩, ?_⟩
      · rw [beq_iff_eq, hdata]
        simp [hy4]
      · rw [htake, List.all_eq_true]
        rintro ch hch
        rename_i hdig
        exact hdig ch hch
      · rw [beq_iff_eq, hdrop2, htake]
        rfl

/-- C2 counterexample: on the header `"abc"` followed by a tab character,
the source's second pass strips the trailing tab (the final Python
`.strip()`), while the four operations the specification lists leave it in
place, so the two normalizations differ on that header. -/
theorem normCol_ne_specNormCol : normCol ("abc\t") ≠ specNormCol ("abc\t") := by
  decide

/-- C2 amended: the second pass of `clean_cols` equals the specification's
four listed operations followed by one more step, stripping leading and
trailing Python whitespace (at that point only trailing non-space
whitespace such as tabs can remain). -/
theorem normCol_eq_strip_spec (c : String) :
    normCol c = ⟨pyStrip (specNormCol c).data⟩ := by
  have hcomm : lowerAll (replSpace c.data) = replSpace (lowerAll c.data) := by
    unfold lowerAll replSpace
    rw [List.map_map, List.map_map]
    exact List.map_congr_left (fun a _ => toLower_spCh_comm a)
  have hstrip : stripLead (replSpace (lowerAll c.data))
      = replSpace (stripLead (lowerAll c.data)) := by
    unfold stripLead replSpace
    have hpred : ((fun c => !isAsciiAlpha c) ∘ spCh) = (fun c => !isAsciiAlpha c) := by
      funext x
      simp [Function.comp, isAsciiAlpha_spCh]
    rw [List.dropWhile_map, hpred]
  show (⟨pyStrip (replHyphen (stripLead (lowerAll (replSpace c.data))))⟩ : String)
      = ⟨pyStrip (replHyphen (replSpace (stripLead (lowerAll c.data))))⟩
  rw [hcomm, hstrip]

/-- C10: header normalization is not injective and can produce degenerate
names — the distinct headers differing only in a space versus a hyphen
collapse to the same name, a bare four-digit header normalizes to the
empty string, and a table with those headers carries duplicate and empty
column names after `clean_cols`. -/
theorem cleanName_not_injective :
    cleanName ("Country Name") = cleanName ("Country-Name") ∧
    ("Country Name" : String) ≠ ("Country-Name" : String) ∧
    cleanName ("2000") = ("" : String) ∧
    (clean_cols ⟨["Country Name", "Country-Name", "2000"], []⟩).cols
      = ["country_name", "country_name", ""] := by
  refine ⟨by decide, by decide, by decide, by decide⟩

/-- Selecting a table's own columns by name reproduces each row, provided
the headers are distinct and the row is as long as the header list. -/
theorem selectCell_map_self (cols : List String) (r : Row)
    (hnd : cols.Nodup) (hlen : r.length = cols.length) :
    cols.map (fun c => selectCell cols r c) = r := by
  induction cols generalizing r with
  | nil =>
      cases r with
      | nil => rfl
      | cons x xs => simp at hlen
  | cons c cs ih =>
      cases r with
      | nil => simp at hlen
      | cons x xs =>
          rw [List.nodup_cons] at hnd
          have hhead : selectCell (c :: cs) (x :: xs) c = x := by
            unfold selectCell
            rw [List.zip_cons_cons, List.lookup_cons]
            simp
          have htail : ∀ c' ∈ cs, selectCell (c :: cs) (x :: xs) c' = selectCell cs xs c' := by
            intro c' hc'
            have hne : (c' == c) = false := by
              rw [beq_eq_false_iff_ne]
              intro he
              exact hnd.1 (he ▸ hc')
            unfold selectCell
            rw [List.zip_cons_cons, List.lookup_cons, hne]
          rw [List.map_cons, hhead]
          congr 1
          rw [List.map_congr_left htail]
          exact ih xs hnd.2 (by simpa using hlen)

/-- A renaming select over a table's own columns only renames: rows are
reproduced verbatim and headers pass through the renaming function. -/
theorem select_rename_rows (df : DataFrame) (f : String → String)
    (hnd : df.cols.Nodup) (hrect : ∀ r ∈ df.rows, r.length = df.cols.length) :
    select df (df.cols.map (fun c => (c, f c))) = ⟨df.cols.map f, df.rows⟩ := by
  unfold select
  congr 1
  · rw [List.map_map]
    rfl
  · have hrow : ∀ r ∈ df.rows,
        (df.cols.map (fun c => (c, f c))).map (fun p => selectCell df.cols r p.1) = r := by
      intro r hr
      rw [List.map_map]
      exact selectCell_map_self df.cols r hnd (hrect r hr)
    calc df.rows.map (fun r => (df.cols.map (fun c => (c, f c))).map (fun p => selectCell df.cols r p.1))
        = df.rows.map id := List.map_congr_left (fun r hr => hrow r hr)
      _ = df.rows := List.map_id df.rows

/-- C9: `clean_cols` is a pure rename — on a well-formed table (rectangular
rows, headers still distinct after the year pass) it reproduces every row,
and cell, unchanged; only the headers change, in order. -/
theorem clean_cols_frame (df : DataFrame)
    (hnd : (df.cols.map fixYearCol).Nodup)
    (hrect : ∀ r ∈ df.rows, r.length = df.cols.length) :
    (clean_cols df).rows = df.rows ∧
      (clean_cols df).cols = df.cols.map cleanName := by
  refine ⟨?_, clean_cols_cols df⟩
  have h1 : select df (df.cols.map (fun c => (c, fixYearCol c)))
      = ⟨df.cols.map fixYearCol, df.rows⟩ :=
    select_rename_rows df fixYearCol (List.Nodup.of_map fixYearCol hnd) hrect
  have h2 : select (⟨df.cols.map fixYearCol, df.rows⟩ : DataFrame)
        ((df.cols.map fixYearCol).map (fun c => (c, normCol c)))
      = ⟨(df.cols.map fixYearCol).map normCol, df.rows⟩ :=
    select_rename_rows ⟨df.cols.map fixYearCol, df.rows⟩ normCol hnd
      (fun r hr => by rw [List.length_map]; exact hrect r hr)
  show (select (select df (df.cols.map (fun c => (c, fixYearCol c))))
      ((select df (df.cols.map (fun c => (c, fixYearCol c)))).cols.map
        (fun c => (c, normCol c)))).rows = df.rows
  rw [h1]
  rw [h2]

/-- C9 witness at a concrete country table. -/
theorem clean_cols_frame_witness :
    (clean_cols dfCountry0).rows = dfCountry0.rows ∧
      (clean_cols dfCountry0).cols = dfCountry0.cols.map cleanName :=
  clean_cols_frame dfCountry0 (by decide) (by decide)

/-- C4: in the country table produced by `process_data`, every row carrying
at least 5 non-null fields when the completeness filter runs is retained,
and every row with fewer than 5 non-null fields is excluded. -/
theorem processCountry_thresh (df : DataFrame) (r : Row)
    (h : r ∈ (withColumnTrim (clean_cols df) "code").rows) :
    (5 ≤ countNonNull r → r ∈ (processCountry df).rows) ∧
    (countNonNull r < 5 → r ∉ (processCountry df).rows) := by
  constructor
  · intro h5
    show r ∈ (withColumnTrim (clean_cols df) "code").rows.filter
        (fun r => 5 ≤ countNonNull r)
    rw [List.mem_filter]
    exact ⟨h, decide_eq_true h5⟩
  · intro h5 hmem
    have hmem2 : r ∈ (withColumnTrim (clean_cols df) "code").rows.filter
        (fun r => 5 ≤ countNonNull r) := hmem
    rw [List.mem_filter] at hmem2
    have h6 := of_decide_eq_true hmem2.2
    omega

/-- C4 witness: in the concrete country table, the row with 3 non-null
fields is dropped and the row with 6 non-null fields is kept. -/
theorem processCountry_thresh_witness :
    ([Cell.str ("ABW"), Cell.str ("Aruba"), Cell.null, Cell.null, Cell.null,
        Cell.str ("Florin"), Cell.null] ∉ (processCountry dfCountry0).rows) ∧
    ([Cell.str ("AFG"), Cell.str ("Afghanistan"), Cell.str ("Low income"),
        Cell.str ("South Asia"), Cell.null, Cell.str ("Afghani"), Cell.str ("HIPC")]
      ∈ (processCountry dfCountry0).rows) :=
  ⟨(processCountry_thresh dfCountry0 _ (by decide)).2 (by decide),
   (processCountry_thresh dfCountry0 _ (by decide)).1 (by decide)⟩

/-- Last cells of a partition's rows after appending ids from `b`. -/
theorem withIdsFrom_lastCells (rs : List Row) : ∀ b : Nat,
    (withIdsFrom b rs).map (fun r => r.getLast?)
      = (List.range rs.length).map (fun j => some (Cell.num (b + j))) := by
  induction rs with
  | nil => intro b; rfl
  | cons r rs ih =>
      intro b
      show (r ++ [Cell.num b]).getLast? :: (withIdsFrom (b + 1) rs).map (fun r => r.getLast?)
          = (List.range (rs.length + 1)).map (fun j => some (Cell.num (b + j)))
      rw [List.getLast?_concat, ih (b + 1), List.range_succ_eq_map, List.map_cons, List.map_map]
      have htail : (List.range rs.length).map (fun j => some (Cell.num (b + 1 + j)))
          = (List.range rs.length).map ((fun j => some (Cell.num (b + j))) ∘ Nat.succ) :=
        List.map_congr_left
          (fun j _ => congrArg (fun k => some (Cell.num k)) (by omega))
      rw [htail]
      rfl

/-- The last cells of the id-extended rows are exactly the generated ids. -/
theorem addIdRows_lastCells (parts : List (List Row)) : ∀ p : Nat,
    (addIdRows p parts).map (fun r => r.getLast?)
      = (idsOfParts p parts).map (fun n => some (Cell.num n)) := by
  induction parts with
  | nil => intro p; rfl
  | cons part parts ih =>
      intro p
      simp only [addIdRows, idsOfParts]
      rw [List.map_append, List.map_append, withIdsFrom_lastCells, ih (p + 1), List.map_map]
      rfl

/-- Ids generated from partition index `p` onwards are at least `p * 2^33`. -/
theorem idsOfParts_lb (parts : List (List Row)) : ∀ p x, x ∈ idsOfParts p parts →
    p * 2 ^ 33 ≤ x := by
  induction parts with
  | nil => intro p x hx; simp [idsOfParts] at hx
  | cons part parts ih =>
      intro p x hx
      simp only [idsOfParts] at hx
      rw [List.mem_append] at hx
      rcases hx with hx | hx
      · rw [List.mem_map] at hx
        obtain ⟨j, _, hj⟩ := hx
        exact hj ▸ Nat.le_add_right _ _
      · have h2 := ih (p + 1) x hx
        have h3 : p * 2 ^ 33 ≤ (p + 1) * 2 ^ 33 := Nat.mul_le_mul_right _ (by omega)
        exact Nat.le_trans h3 h2

/-- The generated id list is strictly increasing whenever every partition
holds at most `2^33` rows. -/
theorem idsOfParts_pairwise (parts : List (List Row)) : ∀ p,
    (∀ part ∈ parts, part.length ≤ 2 ^ 33) →
    (idsOfParts p parts).Pairwise (· < ·) := by
  induction parts with
  | nil => intro p _; simp [idsOfParts]
  | cons part parts ih =>
      intro p hsz
      simp only [idsOfParts]
      rw [List.pairwise_append]
      refine ⟨?_, ih (p + 1) (fun q hq => hsz q (List.mem_cons_of_mem _ hq)), ?_⟩
      · rw [List.pairwise_map]
        exact (List.pairwise_lt_range part.length).imp
          (fun hab => Nat.add_lt_add_left hab _)
      · intro a ha b hb
        rw [List.mem_map] at ha
        obtain ⟨j, hj, hja⟩ := ha
        rw [List.mem_range] at hj
        have hb2 := idsOfParts_lb parts (p + 1) b hb
        have hsz1 : part.length ≤ 2 ^ 33 := hsz part (List.mem_cons_self _ _)
        have hK : (2 : Nat) ^ 33 = 8589934592 := by norm_num
        subst hja
        rw [hK] at hb2 hsz1 ⊢
        omega

/-- All partitions produced by bounded sizes are bounded. -/
theorem splitBySizes_len (sizes : List Nat) (B : Nat) : ∀ rows : List Row,
    (∀ n ∈ sizes, n ≤ B) →
    ∀ part ∈ splitBySizes sizes rows, part.length ≤ B := by
  induction sizes with
  | nil => intro rows _ part hp; simp [splitBySizes] at hp
  | cons n ns ih =>
      intro rows hn part hp
      simp only [splitBySizes] at hp
      rw [List.mem_cons] at hp
      rcases hp with hp | hp
      · subst hp
        rw [List.length_take]
        exact Nat.le_trans (Nat.min_le_left _ _) (hn n (List.mem_cons_self _ _))
      · exact ih (rows.drop n) (fun m hm => hn m (List.mem_cons_of_mem _ hm)) part hp

/-- Every id-extended row ends in an integer id cell. -/
theorem withIdsFrom_shape (rs : List Row) : ∀ b row, row ∈ withIdsFrom b rs →
    ∃ u n, row = u ++ [Cell.num n] := by
  induction rs with
  | nil => intro b row h; simp [withIdsFrom] at h
  | cons r rs ih =>
      intro b row h
      simp only [withIdsFrom, List.mem_cons] at h
      rcases h with h | h
      · exact ⟨r, b, h⟩
      · exact ih (b + 1) row h

/-- Every row produced by the id pass ends in an integer id cell. -/
theorem addIdRows_shape (parts : List (List Row)) : ∀ p row, row ∈ addIdRows p parts →
    ∃ u n, row = u ++ [Cell.num n] := by
  induction parts with
  | nil => intro p row h; simp [addIdRows] at h
  | cons part parts ih =>
      intro p row h
      simp only [addIdRows] at h
      rw [List.mem_append] at h
      rcases h with h | h
      · exact withIdsFrom_shape part _ row h
      · exact ih (p + 1) row h

/-- Replacing any cell of a row ending in an id cell by the trim of the
cell previously there keeps a trailing id cell with the same id. -/
theorem set_trim_keeps_last (u : List Cell) (n : Nat) : ∀ i : Nat,
    ∃ u', (u ++ [Cell.num n]).set i (trimCell ((u ++ [Cell.num n]).getD i Cell.null))
      = u' ++ [Cell.num n] := by
  induction u with
  | nil =>
      intro i
      cases i with
      | zero => exact ⟨[], rfl⟩
      | succ j => exact ⟨[], rfl⟩
  | cons a u ih =>
      intro i
      cases i with
      | zero => exact ⟨trimCell a :: u, rfl⟩
      | succ j =>
          obtain ⟨u', hu'⟩ := ih j
          refine ⟨a :: u', ?_⟩
          show a :: ((u ++ [Cell.num n]).set j (trimCell ((u ++ [Cell.num n]).getD j Cell.null)))
              = a :: (u' ++ [Cell.num n])
          rw [hu']

/-- Trimming a column of a table whose rows all end in an id cell keeps
each row's trailing id cell unchanged. -/
theorem withColumnTrim_lastCells (df : DataFrame) (name : String)
    (h : ∀ row ∈ df.rows, ∃ u n, row = u ++ [Cell.num n]) :
    (withColumnTrim df name).rows.map (fun r => r.getLast?)
        = df.rows.map (fun r => r.getLast?) ∧
      ∀ row ∈ (withColumnTrim df name).rows, ∃ u n, row = u ++ [Cell.num n] := by
  unfold withColumnTrim
  split
  · constructor
    · rw [List.map_map]
      apply List.map_congr_left
      intro r hr
      obtain ⟨u, n, hun⟩ := h r hr
      subst hun
      obtain ⟨u', hu'⟩ := set_trim_keeps_last u n (df.cols.indexOf name)
      show ((u ++ [Cell.num n]).set (df.cols.indexOf name)
          (trimCell ((u ++ [Cell.num n]).getD (df.cols.indexOf name) Cell.null))).getLast?
        = (u ++ [Cell.num n]).getLast?
      rw [hu', List.getLast?_concat, List.getLast?_concat]
    · intro row hrow
      rw [List.mem_map] at hrow
      obtain ⟨r, hr, hrw⟩ := hrow
      obtain ⟨u, n, hun⟩ := h r hr
      subst hun
      obtain ⟨u', hu'⟩ := set_trim_keeps_last u n (df.cols.indexOf name)
      refine ⟨u', n, ?_⟩
      rw [← hrw, hu']
  · exact ⟨rfl, h⟩

/-- C5: within a single `process_data` call, the id column assigned to the
data table is a duplicate-free list of integers, increasing in row order
(under Spark's per-partition bound of `2^33` rows per partition). -/
theorem processData_ids (df : DataFrame) (sizes : List Nat)
    (hsz : ∀ n ∈ sizes, n ≤ 2 ^ 33) :
    ∃ ids : List Nat,
      (processData df sizes).rows.map (fun r => r.getLast?)
        = ids.map (fun n => some (Cell.num n)) ∧
      ids.Pairwise (· < ·) ∧ ids.Nodup := by
  refine ⟨idsOfParts 0 (splitBySizes sizes (clean_cols df).rows), ?_, ?_, ?_⟩
  · have hshape0 : ∀ row ∈ (addIdColumn (clean_cols df) sizes).rows,
        ∃ u n, row = u ++ [Cell.num n] :=
      fun row hrow => addIdRows_shape (splitBySizes sizes (clean_cols df).rows) 0 row hrow
    have h1 := withColumnTrim_lastCells (addIdColumn (clean_cols df) sizes)
      ("series_code") hshape0
    have h2 := withColumnTrim_lastCells
      (withColumnTrim (addIdColumn (clean_cols df) sizes) ("series_code"))
      ("country_code") h1.2
    show (withColumnTrim (withColumnTrim (addIdColumn (clean_cols df) sizes)
        ("series_code")) ("country_code")).rows.map (fun r => r.getLast?) = _
    rw [h2.1, h1.1]
    exact addIdRows_lastCells (splitBySizes sizes (clean_cols df).rows) 0
  · exact idsOfParts_pairwise _ 0
      (splitBySizes_len sizes (2 ^ 33) (clean_cols df).rows hsz)
  · exact (idsOfParts_pairwise _ 0
      (splitBySizes_len sizes (2 ^ 33) (clean_cols df).rows hsz)).imp
      (fun hab => Nat.ne_of_lt hab)

/-- C5 witness at a concrete data table and partition layout. -/
theorem processData_ids_witness :
    ∃ ids : List Nat,
      (processData dfData0 [2, 1]).rows.map (fun r => r.getLast?)
        = ids.map (fun n => some (Cell.num n)) ∧
      ids.Pairwise (· < ·) ∧ ids.Nodup :=
  processData_ids dfData0 [2, 1] (by decide)

/-- C6 counterexample: a client holding a working connection (handle 7)
whose next `connect` call fails still holds that prior cursor and
connection afterwards — neither is null, so the claim that a failed
connect always leaves the client with a null cursor/connection is false. -/
theorem connect_failure_keeps_old_connection :
    (connect ⟨some (7, true), some 7⟩ (Except.error ("connection refused"))).1.cursor ≠ none ∧
    (connect ⟨some (7, true), some 7⟩ (Except.error ("connection refused"))).1.connection ≠ none := by
  exact ⟨by decide, by decide⟩

/-- C6 amended: a failed `connect` leaves the client state exactly as it
was.  A client that never connected successfully (null cursor) therefore
still has a null cursor, and subsequent operations fail with a null-cursor
condition; but a prior working connection and cursor survive the failed
call unchanged. -/
theorem connect_failure_state (st : PGClient) (e : String) :
    (connect st (Except.error e)).1 = st ∧
      (st.cursor = none → (connect st (Except.error e)).1.cursor = none) :=
  ⟨rfl, fun h => h⟩

/-- C6 witness: a fresh client whose initial connect fails keeps its null
cursor. -/
theorem connect_failure_state_witness :
    (connect ⟨none, none⟩ (Except.error ("connection refused"))).1 = (⟨none, none⟩ : PGClient) ∧
      (connect ⟨none, none⟩ (Except.error ("connection refused"))).1.cursor = none :=
  ⟨(connect_failure_state ⟨none, none⟩ ("connection refused")).1,
   (connect_failure_state ⟨none, none⟩ ("connection refused")).2 rfl⟩

/-- C7: with a live cursor, `execute_query` returns all fetched rows (in
order) when `fetch` is true and nothing when `fetch` is false; on a driver
error it logs the error and returns a null result in both cases instead of
raising. -/
theorem execute_query_spec (st : PGClient) (q : String) (c : Nat)
    (hc : st.cursor = some c) (rows : List (List String)) (msg : String) :
    execute_query st q true (ExecOutcome.success rows) = Except.ok (some rows, []) ∧
    execute_query st q false (ExecOutcome.success rows) = Except.ok (none, []) ∧
    execute_query st q true (ExecOutcome.driverError msg)
      = Except.ok (none, [("Error executing the query: ") ++ msg]) ∧
    execute_query st q false (ExecOutcome.driverError msg)
      = Except.ok (none, [("Error executing the query: ") ++ msg]) := by
  unfold execute_query
  rw [hc]
  exact ⟨rfl, rfl, rfl, rfl⟩

/-- C7 witness at a concrete client, query, row set and error. -/
theorem execute_query_spec_witness :
    execute_query ⟨some (1, true), some 1⟩ ("SELECT 1") true (ExecOutcome.success [["1"]])
        = Except.ok (some [["1"]], []) ∧
    execute_query ⟨some (1, true), some 1⟩ ("SELECT 1") false (ExecOutcome.success [["1"]])
        = Except.ok (none, []) ∧
    execute_query ⟨some (1, true), some 1⟩ ("SELECT 1") true (ExecOutcome.driverError ("boom"))
        = Except.ok (none, [("Error executing the query: ") ++ "boom"]) ∧
    execute_query ⟨some (1, true), some 1⟩ ("SELECT 1") false (ExecOutcome.driverError ("boom"))
        = Except.ok (none, [("Error executing the query: ") ++ "boom"]) :=
  execute_query_spec ⟨some (1, true), some 1⟩ ("SELECT 1") 1 rfl [["1"]] ("boom")

/-- C8: `create_table` with an empty column list issues no SQL statement
and does not raise, and with a non-empty column list it builds the
`CREATE TABLE IF NOT EXISTS` statement from the ordered column pairs and
hands exactly that statement to `execute_query`. -/
theorem create_table_spec (st : PGClient) (tn : String) (oc : ExecOutcome) :
    create_table st tn [] oc
        = ([], Except.ok (none, [("No columns specified for table creation.")])) ∧
    ∀ columns : List (String × String), columns ≠ [] →
      (create_table st tn columns oc).1
          = [("CREATE TABLE IF NOT EXISTS ") ++ tn ++ (" (\n")
              ++ column_defs columns ++ ("\n);")] ∧
      (create_table st tn columns oc).2
          = execute_query st (("CREATE TABLE IF NOT EXISTS ") ++ tn ++ (" (\n")
              ++ column_defs columns ++ ("\n);")) false oc := by
  refine ⟨rfl, ?_⟩
  intro columns hne
  have hempty : columns.isEmpty = false := by
    cases columns with
    | nil => exact absurd rfl hne
    | cons a l => rfl
  have hcond : ¬ (columns.isEmpty = true) := by
    rw [hempty]
    exact Bool.false_ne_true
  unfold create_table
  rw [if_neg hcond]
  exact ⟨rfl, rfl⟩

/-- C8 witness at a concrete client and column list. -/
theorem create_table_spec_witness :
    (create_table ⟨some (1, true), some 1⟩ ("account_country")
        [(("code"), ("VARCHAR PRIMARY KEY"))] (ExecOutcome.success [])).1
      = [("CREATE TABLE IF NOT EXISTS ") ++ "account_country" ++ (" (\n")
          ++ column_defs [(("code"), ("VARCHAR PRIMARY KEY"))] ++ ("\n);")] :=
  ((create_table_spec ⟨some (1, true), some 1⟩ ("account_country")
      (ExecOutcome.success [])).2 [(("code"), ("VARCHAR PRIMARY KEY"))] (by decide)).1

